import Mathlib

/-!
Shallow embedding of `src/scripts/benchmark.c`.

Modelling conventions:
* C `float` values are embedded as exact rationals (`ℚ`); C `long` as `ℤ`;
  C `int` counters as `ℕ` (they are only ever non-negative in the program).
* A line read by `fgets` is modelled as a `String` without the trailing
  newline; every parsing routine in the C file is insensitive to a trailing
  `'\n'` because it is whitespace for `sscanf`/`atol` and never occurs in a
  searched pattern.
* `sscanf(p, "%f%9s", ...)` is modelled for decimal literals (optional sign,
  digits, optional fraction); the exponent/hex/inf forms of `%f` never occur
  in the benchmark reports.  The `%9s` conversion stores at most 9 bytes of
  the unit token; the model truncates at UTF-8 character granularity, which
  agrees with the C behaviour on every comparison the code performs (all
  recognized unit literals are at most 3 bytes long, so a truncated token can
  never compare equal to one of them).
* The `FILE *` streams are modelled as the list of lines remaining.
-/

namespace Bench

/-- Character class of C `isspace` in the default locale, by code point. -/
def isCWhite (c : Char) : Bool :=
  c.toNat = 32 || c.toNat = 9 || c.toNat = 10 || c.toNat = 13 ||
  c.toNat = 11 || c.toNat = 12

/-- Decimal digit test, by code point (`'0'` = 48, `'9'` = 57). -/
def isDigitC (c : Char) : Bool :=
  48 ≤ c.toNat && c.toNat ≤ 57

/-- ASCII letter test, by code point. -/
def isAsciiAlphaC (c : Char) : Bool :=
  (65 ≤ c.toNat && c.toNat ≤ 90) || (97 ≤ c.toNat && c.toNat ≤ 122)

/-- Numeric value of a list of decimal digit characters (most significant
first), as accumulated by the usual `10*acc + digit` loop. -/
def digitsVal (ds : List Char) : ℕ :=
  ds.foldl (fun acc c => 10 * acc + (c.toNat - 48)) 0

/-- Number of bytes of the UTF-8 encoding of a character. -/
def utf8Len (c : Char) : ℕ :=
  if c.toNat ≤ 0x7F then 1 else if c.toNat ≤ 0x7FF then 2
  else if c.toNat ≤ 0xFFFF then 3 else 4

/-- Longest prefix of the character list whose UTF-8 encoding fits in `n`
bytes.  Models the byte limit of a `%9s` conversion (see header comment). -/
def takeBytes : ℕ → List Char → List Char
  | _, [] => []
  | n, c :: cs => if utf8Len c ≤ n then c :: takeBytes (n - utf8Len c) cs else []

/-- Whether `p` is a prefix of `s` (character-wise). -/
def listPrefixOf : List Char → List Char → Bool
  | [], _ => true
  | _ :: _, [] => false
  | p :: ps, c :: cs => p = c && listPrefixOf ps cs

/-- Model of C `strstr` followed by `p += strlen(pat)`: the suffix of `s`
after the first occurrence of `pat`, or `none` when `pat` does not occur. -/
def strstrTail (pat : List Char) : List Char → Option (List Char)
  | [] => if pat = [] then some [] else none
  | c :: cs =>
      if listPrefixOf pat (c :: cs) then some ((c :: cs).drop pat.length)
      else strstrTail pat cs

/-- Whether the line contains the pattern as a substring (C `strstr ≠ NULL`). -/
def containsPat (line pat : String) : Bool :=
  (strstrTail pat.toList line.toList).isSome

/-- Model of a `%f` conversion on the unsigned part: digits with an optional
fraction, requiring at least one digit overall.  Returns the value and the
unconsumed remainder. -/
def parseUnsigned (cs : List Char) : Option (ℚ × List Char) :=
  let intDs := cs.takeWhile isDigitC
  match cs.dropWhile isDigitC with
  | [] => if intDs = [] then none else some ((digitsVal intDs : ℚ), [])
  | c :: rest2 =>
      if c = '.' then
        let fracDs := rest2.takeWhile isDigitC
        if intDs = [] && fracDs = [] then none
        else some ((digitsVal intDs : ℚ) + (digitsVal fracDs : ℚ) / (10 : ℚ) ^ fracDs.length,
                   rest2.dropWhile isDigitC)
      else if intDs = [] then none else some ((digitsVal intDs : ℚ), c :: rest2)

/-- Model of a full `%f` conversion: skip whitespace, optional sign, then the
unsigned decimal form. -/
def parseFloatQ (cs : List Char) : Option (ℚ × List Char) :=
  match cs.dropWhile isCWhite with
  | [] => parseUnsigned []
  | c :: rest =>
      if c = '-' then (parseUnsigned rest).map (fun pr => (-pr.1, pr.2))
      else if c = '+' then parseUnsigned rest
      else parseUnsigned (c :: rest)

/-- The unit token read by `%9s` after the number: skip whitespace, take the
next whitespace-free run, truncated to 9 bytes (the `char unit[10]` buffer). -/
def unitTokenL (cs : List Char) : List Char :=
  takeBytes 9 ((cs.dropWhile isCWhite).takeWhile (fun c => !isCWhite c))

/-- Unit conversion of `parse_time_line` (benchmark.c lines 36-40): seconds
multiply by 1000, recognized microsecond spellings divide by 1000, anything
else (including an absent unit) leaves the number unchanged. -/
def apply_unit (number : ℚ) (unit : List Char) : ℚ :=
  if unit = "s".toList || unit = "sec".toList then number * 1000
  else if unit = "µs".toList || unit = "microseconds".toList then number / 1000
  else number

/-- Model of `parse_time_line` (benchmark.c lines 20-43).  `none` models a
`return 0` (in which case the C function leaves `*val` untouched). -/
def parse_time_line (line pat : String) : Option ℚ :=
  match strstrTail pat.toList line.toList with
  | none => none
  | some p =>
      let q := p.dropWhile (fun c => c = ' ')
      match parseFloatQ q with
      | none => none
      | some nr => some (apply_unit nr.1 (unitTokenL nr.2))

/-- Model of `parse_cpu_line` (benchmark.c lines 45-60).  Once the pattern is
found the function always succeeds, storing 0 when no number parses. -/
def parse_cpu_line (line pat : String) : Option ℚ :=
  match strstrTail pat.toList line.toList with
  | none => none
  | some p =>
      let q := p.dropWhile (fun c => c = ' ')
      some (match parseFloatQ q with
            | none => 0
            | some nr => nr.1)

/-- Model of C `atol`: skip whitespace, optional sign, leading digits
(0 when there are none). -/
def atolZ (cs : List Char) : ℤ :=
  match cs.dropWhile isCWhite with
  | '-' :: rest => -(digitsVal (rest.takeWhile isDigitC) : ℤ)
  | '+' :: rest => (digitsVal (rest.takeWhile isDigitC) : ℤ)
  | other => (digitsVal (other.takeWhile isDigitC) : ℤ)

/-- Model of `parse_rss` (benchmark.c lines 62-72). -/
def parse_rss (line : String) : Option ℤ :=
  match strstrTail "Max RSS:".toList line.toList with
  | none => none
  | some p => some (atolZ p)

/-- The `Metrics` struct (benchmark.c lines 10-18), numeric fields only (the
`name` pointer is unused by the parsing and averaging code). -/
structure Metrics where
  user_time : ℚ
  system_time : ℚ
  cpu_usage : ℚ
  wall_clock : ℚ
  max_rss : ℤ
deriving DecidableEq, Repr

/-- A zero-initialized `Metrics` value (`memset(out, 0, sizeof(Metrics))`,
and the `= {0}` initializers in `main`). -/
def Metrics.zero : Metrics := ⟨0, 0, 0, 0, 0⟩

/-- Model of `calculate_new_average` (benchmark.c lines 74-79).  The C
`currentCount` argument is always `current_count - 1 ≥ 0` at every call
site, so it is embedded as a natural number. -/
def calculate_new_average (old_avg : ℚ) (currentCount : ℕ) (current_value : ℚ) : ℚ :=
  if currentCount = 0 then current_value
  else (currentCount * old_avg + current_value) / (currentCount + 1)

/-- The integer running-average step for `max_rss` (benchmark.c line 116),
with C `long` division (truncation toward zero, `Int.tdiv`).  `count` is the
value of `currentCount - 1` at the call site. -/
def rss_update (old : ℤ) (count : ℕ) (x : ℤ) : ℤ :=
  ((count : ℤ) * old + x).tdiv ((count : ℤ) + 1)

/-- The five labeled metric prefixes of the report format. -/
inductive MetricField | wall | user | sys | cpu | rss
deriving DecidableEq, Repr

/-- The block-terminator pattern (benchmark.c line 119): 39 `=` characters. -/
def terminatorPat : String := "======================================="

/-- Which metric field a line is routed to by the `else if` chain of
`parse_metrics_block` (benchmark.c lines 89-118), checked in source order;
`none` for a line matching no field prefix. -/
def matchedField (line : String) : Option MetricField :=
  if containsPat line "Wall Clock Time:" then some .wall
  else if containsPat line "User time:" then some .user
  else if containsPat line "System time:" then some .sys
  else if containsPat line "CPU Usage:" then some .cpu
  else if containsPat line "Max RSS:" then some .rss
  else none

/-- The loop state of `parse_metrics_block`: the sample being built (`out`),
the caller's running-average struct (`avg`, mutated in place by the C code),
and the `found` counter. -/
structure BlockState where
  out : Metrics
  avg : Metrics
  found : ℕ
deriving DecidableEq, Repr

/-- Effect of one matched line on the loop state of `parse_metrics_block`
(benchmark.c lines 89-118): attempt the field parse (a failed time parse
leaves the sample field untouched), immediately fold the sample field into
the running average with index `cc - 1`, and increment `found`
unconditionally. -/
def block_step (line : String) (cc : ℕ) (st : BlockState) : BlockState :=
  match matchedField line with
  | some .wall =>
      let out := { st.out with wall_clock := (parse_time_line line "Wall Clock Time:").getD st.out.wall_clock }
      ⟨out, { st.avg with wall_clock := calculate_new_average st.avg.wall_clock (cc - 1) out.wall_clock },
       st.found + 1⟩
  | some .user =>
      let out := { st.out with user_time := (parse_time_line line "User time:").getD st.out.user_time }
      ⟨out, { st.avg with user_time := calculate_new_average st.avg.user_time (cc - 1) out.user_time },
       st.found + 1⟩
  | some .sys =>
      let out := { st.out with system_time := (parse_time_line line "System time:").getD st.out.system_time }
      ⟨out, { st.avg with system_time := calculate_new_average st.avg.system_time (cc - 1) out.system_time },
       st.found + 1⟩
  | some .cpu =>
      let out := { st.out with cpu_usage := (parse_cpu_line line "CPU Usage:").getD st.out.cpu_usage }
      ⟨out, { st.avg with cpu_usage := calculate_new_average st.avg.cpu_usage (cc - 1) out.cpu_usage },
       st.found + 1⟩
  | some .rss =>
      let out := { st.out with max_rss := (parse_rss line).getD st.out.max_rss }
      ⟨out, { st.avg with max_rss := rss_update st.avg.max_rss (cc - 1) out.max_rss },
       st.found + 1⟩
  | none => st

/-- The `while (fgets(...))` loop of `parse_metrics_block`: field lines go
through `block_step`, a terminator line breaks (returning the unconsumed
remainder of the stream), any other line is skipped. -/
def parse_block_go (cc : ℕ) : List String → BlockState → BlockState × List String
  | [], st => (st, [])
  | l :: ls, st =>
      match matchedField l with
      | some _ => parse_block_go cc ls (block_step l cc st)
      | none =>
          if containsPat l terminatorPat then (st, ls)
          else parse_block_go cc ls st

/-- Result of `parse_metrics_block` (benchmark.c lines 81-126): the sample,
the mutated running average, the `found` counter, the return value
(`found == 5`), and the unconsumed remainder of the stream. -/
structure BlockResult where
  out : Metrics
  avg : Metrics
  found : ℕ
  complete : Bool
  rest : List String
deriving DecidableEq, Repr

/-- Model of `parse_metrics_block` on a line stream, with running average
`avg` and 1-based iteration counter `cc` (the C `currentCount`). -/
def parse_metrics_block (lines : List String) (avg : Metrics) (cc : ℕ) : BlockResult :=
  let r := parse_block_go cc lines ⟨Metrics.zero, avg, 0⟩
  ⟨r.1.out, r.1.avg, r.1.found, r.1.found == 5, r.2⟩

/-- The header line written by `write_csv_header` (benchmark.c line 130). -/
def csv_header_line : String := "user_time,system_time,cpu_percent,wallclock_time,max_rss"

/-- One line of a CSV file: the header (with its literal text) or a data row
carrying the `Metrics` values printed by `write_csv` (benchmark.c line 135). -/
inductive Row
  | header (s : String)
  | data (m : Metrics)
deriving DecidableEq, Repr

/-- The eight phases of `main`, one per `avg_*_metrics` struct / CSV file. -/
inductive Phase
  | loadmodel | readimg | redbox | preprocessing | inference
  | postprocessing | greenbox | total
deriving DecidableEq, Repr

/-- Section-header routing of `main` (benchmark.c lines 261-300), checked in
source order. -/
def headerPhase (line : String) : Option Phase :=
  if containsPat line "loadmodel Metrics" then some .loadmodel
  else if containsPat line "readimg Metrics" then some .readimg
  else if containsPat line "RED BOX Phase Metrics" then some .redbox
  else if containsPat line "Pre-processing Metrics" then some .preprocessing
  else if containsPat line "Inference Metrics" then some .inference
  else if containsPat line "Post-processing Metrics" then some .postprocessing
  else if containsPat line "GREEN BOX Phase Metrics" then some .greenbox
  else if containsPat line "Total Metrics" then some .total
  else none

/-- Pointwise update of a per-phase map. -/
def updPhase {α : Type} (f : Phase → α) (p : Phase) (x : α) : Phase → α :=
  fun q => if q = p then x else f q

/-- The line-routing loop of `main` (benchmark.c lines 258-301): a section
header hands the rest of the stream to `parse_metrics_block` with that
phase's running average; a completed block appends one data row to that
phase's CSV; any other line is skipped. -/
def route_lines : List String → (Phase → Metrics) → (Phase → List Row) → ℕ →
    (Phase → Metrics) × (Phase → List Row)
  | [], avg, csv, _ => (avg, csv)
  | l :: ls, avg, csv, cc =>
      match headerPhase l with
      | some ph =>
          let r := parse_metrics_block ls (avg ph) cc
          route_lines r.rest (updPhase avg ph r.avg)
            (if r.complete then updPhase csv ph (csv ph ++ [Row.data r.out]) else csv) cc
      | none => route_lines ls avg csv cc
  termination_by lines _ _ _ => lines.length
  decreasing_by
    · have hle : ∀ (ms : List String) (st : BlockState),
          (parse_block_go cc ms st).2.length ≤ ms.length := by
        intro ms
        induction ms with
        | nil => intro _st; simp [parse_block_go]
        | cons a as ih =>
            intro st
            rw [parse_block_go]
            split
            · exact le_trans (ih _) (Nat.le_succ _)
            · split
              · simp
              · exact le_trans (ih _) (Nat.le_succ _)
      simp only [parse_metrics_block, List.length_cons]
      exact Nat.lt_succ_of_le (hle _ _)
    · simp

/-- The initial CSV state of `main`: each file holds exactly the header line
(benchmark.c lines 216-223). -/
def initCsv : Phase → List Row := fun _ => [Row.header csv_header_line]

/-- The iteration loop of `main` (benchmark.c lines 236-304).  Each entry of
`iters` is one iteration: `none` models a failed invocation (non-zero exit
or unreadable output file: the iteration is skipped by `continue`), `some
lines` the captured report.  `current_count` is incremented at the top of
the loop body, before the failure check. -/
def run_go : List (Option (List String)) → (Phase → Metrics) → (Phase → List Row) → ℕ →
    (Phase → Metrics) × (Phase → List Row)
  | [], avg, csv, _ => (avg, csv)
  | it :: rest, avg, csv, cc =>
      match it with
      | none => run_go rest avg csv (cc + 1)
      | some lines =>
          let st := route_lines lines avg csv (cc + 1)
          run_go rest st.1 st.2 (cc + 1)

/-- The whole benchmarking run for a given sequence of iteration outcomes:
zeroed averages, headers already written, `current_count = 0`. -/
def run_bench (iters : List (Option (List String))) :
    (Phase → Metrics) × (Phase → List Row) :=
  run_go iters (fun _ => Metrics.zero) initCsv 0

/-- Folding a sequence of sample values for one float field through the
code's incremental update: the k-th value is folded in by
`calculate_new_average` with count `k - 1`, exactly as the call sites in
`parse_metrics_block` do when `currentCount` takes the values `1, 2, …`. -/
def avg_fold_go : ℚ → ℕ → List ℚ → ℚ
  | mean, _, [] => mean
  | mean, count, x :: xs => avg_fold_go (calculate_new_average mean count x) (count + 1) xs

/-- Running average of a list of float samples, starting from the zeroed
state, occurrence indices `1..n`. -/
def avg_fold (xs : List ℚ) : ℚ := avg_fold_go 0 0 xs

/-- Folding a sequence of RSS values through the code's integer update
(benchmark.c line 116), the k-th value with count `k - 1`. -/
def rss_fold_go : ℤ → ℕ → List ℤ → ℤ
  | r, _, [] => r
  | r, count, x :: xs => rss_fold_go (rss_update r count x) (count + 1) xs

/-- Running integer average of a list of RSS samples, starting from zero. -/
def rss_fold (xs : List ℤ) : ℤ := rss_fold_go 0 0 xs

/-- The lines of a block that `parse_metrics_block` inspects before
stopping: every line up to (excluding) the first line that matches no field
prefix but contains the terminator pattern. -/
def blockLines : List String → List String
  | [] => []
  | l :: ls =>
      match matchedField l with
      | some _ => l :: blockLines ls
      | none => if containsPat l terminatorPat then [] else l :: blockLines ls

/-- A minimal complete Inference report section whose user time is `u`
milliseconds (all five fields present, then the terminator). -/
def inferenceReport (u : String) : List String :=
  [ "Inference Metrics",
    "User time: " ++ u ++ " ms",
    "System time: 0 ms",
    "Wall Clock Time: 0 ms",
    "CPU Usage: 0",
    "Max RSS: 0",
    terminatorPat ]

/-- Three iterations in which the second invocation fails: the surviving
iterations report user times of 10 ms and 40 ms for the Inference phase. -/
def threeIterOneFailed : List (Option (List String)) :=
  [some (inferenceReport "10"), none, some (inferenceReport "40")]

theorem avg_fold_go_closed (xs : List ℚ) : ∀ (s : ℚ) (k : ℕ), 0 < k →
    avg_fold_go (s / k) k xs = (s + xs.sum) / (k + xs.length) := by
  induction xs with
  | nil => intro s k _; simp [avg_fold_go]
  | cons x t ih =>
      intro s k hk
      have hk' : (k : ℚ) ≠ 0 := Nat.cast_ne_zero.mpr hk.ne'
      have hstep : calculate_new_average (s / k) k x = (s + x) / ((k : ℚ) + 1) := by
        rw [calculate_new_average, if_neg hk.ne']
        field_simp
      rw [avg_fold_go, hstep,
        show ((s + x) / ((k : ℚ) + 1)) = (s + x) / ((k + 1 : ℕ) : ℚ) by push_cast; ring_nf,
        ih (s + x) (k + 1) (Nat.succ_pos k)]
      simp only [List.sum_cons, List.length_cons]
      push_cast
      ring_nf

/-- C3: folding a sequence of n sample values of one float field through the
incremental update of `calculate_new_average` (occurrence indices 1..n,
count arguments 0..n-1) yields exactly the arithmetic mean of the values,
in exact rational arithmetic. -/
theorem claim_c3_fold_is_mean (xs : List ℚ) (h : xs ≠ []) :
    avg_fold xs = xs.sum / xs.length := by
  match xs, h with
  | x :: t, _ =>
    have h0 : calculate_new_average 0 0 x = x := by rw [calculate_new_average, if_pos rfl]
    rw [avg_fold, avg_fold_go, h0,
      show avg_fold_go x 1 t = avg_fold_go (x / ((1 : ℕ) : ℚ)) 1 t by norm_num,
      avg_fold_go_closed t x 1 one_pos]
    simp only [List.sum_cons, List.length_cons]
    push_cast
    ring_nf

/-- Concrete instantiation of `claim_c3_fold_is_mean` at the sample list
`[1, 2, 3]` (hypothesis discharged on the concrete input). -/
theorem claim_c3_witness :
    ([1, 2, 3] : List ℚ) ≠ [] ∧
      avg_fold [1, 2, 3] = ([1, 2, 3] : List ℚ).sum / (([1, 2, 3] : List ℚ).length) :=
  ⟨by simp, claim_c3_fold_is_mean _ (by simp)⟩

/-- C5 counterexample: on the RSS sequence `[1, 0, 5]` the stepwise
integer-division fold yields 1, while summing once and dividing by 3 with
the same truncating division yields 2 — the claimed identity is false. -/
theorem claim_c5_counterexample :
    rss_fold [1, 0, 5] = 1 ∧
      ([1, 0, 5] : List ℤ).sum.tdiv (([1, 0, 5] : List ℤ).length) = 2 ∧
      rss_fold [1, 0, 5] ≠ ([1, 0, 5] : List ℤ).sum.tdiv (([1, 0, 5] : List ℤ).length) := by
  refine ⟨by decide, by decide, by decide⟩

theorem rss_fold_go_closed (xs : List ℤ) : ∀ (q : ℤ) (c : ℕ), 0 < c →
    (∀ j, j < xs.length → ((c : ℤ) + j + 1) ∣ ((c : ℤ) * q + (xs.take (j + 1)).sum)) →
    rss_fold_go q c xs = ((c : ℤ) * q + xs.sum).tdiv ((c : ℤ) + xs.length) := by
  induction xs with
  | nil =>
      intro q c hc _
      have hc' : (c : ℤ) ≠ 0 := by exact_mod_cast hc.ne'
      simp [rss_fold_go, Int.mul_tdiv_cancel_left _ hc']
  | cons x t ih =>
      intro q c hc hdvd
      have h0 : ((c : ℤ) + 1) ∣ ((c : ℤ) * q + x) := by
        have h := hdvd 0 (by simp)
        simpa using h
      have hqe : ((c : ℤ) + 1) * (((c : ℤ) * q + x).tdiv ((c : ℤ) + 1)) = (c : ℤ) * q + x :=
        Int.mul_tdiv_cancel' h0
      have hstep : rss_update q c x = ((c : ℤ) * q + x).tdiv ((c : ℤ) + 1) := rfl
      rw [rss_fold_go, hstep]
      have ihh := ih (((c : ℤ) * q + x).tdiv ((c : ℤ) + 1)) (c + 1) (Nat.succ_pos c) ?_
      · rw [ihh]
        congr 1
        · push_cast
          push_cast at hqe
          simp only [List.sum_cons]
          linarith [hqe]
        · simp only [List.length_cons]
          push_cast
          ring
      · intro j hj
        have h := hdvd (j + 1) (by simpa using Nat.succ_lt_succ hj)
        rw [List.take_succ_cons, List.sum_cons] at h
        have hdivisor : ((c : ℤ) + (j + 1 : ℕ) + 1) = (((c + 1 : ℕ) : ℤ) + j + 1) := by
          push_cast; ring
        have hbody : ((c : ℤ) * q + (x + (t.take (j + 1)).sum)) =
            (((c + 1 : ℕ) : ℤ) * (((c : ℤ) * q + x).tdiv ((c : ℤ) + 1)) + (t.take (j + 1)).sum) := by
          push_cast
          push_cast at hqe
          linarith [hqe]
        rw [hdivisor, hbody] at h
        exact h

/-- C5 amended: the stepwise integer-division fold coincides with the
one-shot integer mean whenever every prefix mean is exact, i.e. k divides
the sum of the first k values for every k up to n; the counterexample
`[1, 0, 5]` shows the unconditional claim is false. -/
theorem claim_c5_amended_exact_prefixes (xs : List ℤ) (hne : xs ≠ [])
    (hdvd : ∀ k, k < xs.length → ((k : ℤ) + 1) ∣ (xs.take (k + 1)).sum) :
    rss_fold xs = xs.sum.tdiv (xs.length) := by
  match xs, hne with
  | x :: t, _ =>
    have h1 : rss_update 0 0 x = x := by simp [rss_update]
    rw [rss_fold, rss_fold_go, h1]
    have key := rss_fold_go_closed t x 1 one_pos ?_
    · rw [show rss_fold_go x (0 + 1) t = rss_fold_go x 1 t by norm_num, key]
      congr 1
      · push_cast; simp [List.sum_cons]
      · simp only [List.length_cons]; push_cast; ring
    · intro j hj
      have h := hdvd (j + 1) (by simpa using Nat.succ_lt_succ hj)
      rw [List.take_succ_cons, List.sum_cons] at h
      have hdivisor : (((j + 1 : ℕ) : ℤ) + 1) = (((1 : ℕ) : ℤ) + j + 1) := by push_cast; ring
      have hbody : ((x : ℤ) + (t.take (j + 1)).sum) =
          (((1 : ℕ) : ℤ) * x + (t.take (j + 1)).sum) := by push_cast; ring
      rw [hdivisor, hbody] at h
      exact h

/-- Concrete instantiation of `claim_c5_amended_exact_prefixes` at the RSS
sequence `[1, 3, 2]`, whose prefix sums 1, 4, 6 are divisible by 1, 2, 3. -/
theorem claim_c5_witness :
    ([1, 3, 2] : List ℤ) ≠ [] ∧
      (∀ k, k < ([1, 3, 2] : List ℤ).length →
        ((k : ℤ) + 1) ∣ (([1, 3, 2] : List ℤ).take (k + 1)).sum) ∧
      rss_fold [1, 3, 2] = ([1, 3, 2] : List ℤ).sum.tdiv (([1, 3, 2] : List ℤ).length) :=
  ⟨by simp, by decide, claim_c5_amended_exact_prefixes _ (by simp) (by decide)⟩

/-- C1: the code violates the claimed invariant.  In a run of 3 iterations
where iteration 2's invocation fails, the Inference user times 10 and 40 of
the two accepted Samples are averaged with the global iteration counter as
index, producing (2·10 + 40)/3 = 20 instead of the claimed mean
(10 + 40)/2 = 25 of the two accepted Samples. -/
theorem claim_c1_iteration_index_bug :
    ((run_bench threeIterOneFailed).1 Phase.inference).user_time = 20 ∧
      ((10 : ℚ) + 40) / 2 = 25 ∧ (20 : ℚ) ≠ 25 := by
  refine ⟨?_, by norm_num, by norm_num⟩
  simp +decide [run_bench, run_go, route_lines, threeIterOneFailed, inferenceReport, initCsv,
    parse_metrics_block, parse_block_go, block_step, matchedField, headerPhase, containsPat,
    parse_time_line, parse_cpu_line, parse_rss, parseFloatQ, parseUnsigned, atolZ,
    strstrTail, listPrefixOf, isCWhite, isDigitC, digitsVal, apply_unit, unitTokenL,
    takeBytes, utf8Len, updPhase, calculate_new_average, rss_update, Metrics.zero,
    List.dropWhile_cons, List.takeWhile_cons]
  norm_num

theorem parse_block_go_found (cc : ℕ) : ∀ (lines : List String) (st : BlockState),
    ((parse_block_go cc lines st).1).found =
      st.found + (blockLines lines).countP (fun l => (matchedField l).isSome) := by
  intro lines
  induction lines with
  | nil => intro st; simp [parse_block_go, blockLines]
  | cons l ls ih =>
      intro st
      rw [parse_block_go, blockLines]
      cases hm : matchedField l with
      | some f =>
          simp only
          rw [ih]
          have hfound : (block_step l cc st).found = st.found + 1 := by
            cases f <;> simp [block_step, hm]
          rw [hfound, List.countP_cons]
          simp [hm]
          omega
      | none =>
          simp only
          split
          · simp [blockLines]
          · rw [ih, List.countP_cons]
            simp [hm]

/-- C4 counterexample: a block of five repeated `User time:` lines is
reported complete (`found == 5`) although the system-time field (among
others) was never matched, so "complete iff each of the five fields was
matched at least once" is false. -/
theorem claim_c4_counterexample :
    (parse_metrics_block
        ["User time: 1 ms", "User time: 1 ms", "User time: 1 ms", "User time: 1 ms",
          "User time: 1 ms"] Metrics.zero 1).complete = true ∧
      (["User time: 1 ms", "User time: 1 ms", "User time: 1 ms", "User time: 1 ms",
          "User time: 1 ms"].all fun l => matchedField l != some MetricField.sys) = true :=
  ⟨by decide, by decide⟩

/-- C4 amended: the Metrics Block Parser reports the block complete (and
the Sample is accepted) iff the number of field-prefix lines seen before the
terminator or end of stream — counting repeated occurrences of the same
field separately — is exactly five. -/
theorem claim_c4_complete_iff_count (lines : List String) (avg : Metrics) (cc : ℕ) :
    (parse_metrics_block lines avg cc).complete =
      ((blockLines lines).countP (fun l => (matchedField l).isSome) == 5) := by
  simp only [parse_metrics_block]
  rw [parse_block_go_found]
  simp

/-- C7 counterexample: on the line `User time: abc` (known prefix, no
parseable number) the sample field stays at its default zero, but the
`found` counter is incremented anyway, because the C code ignores the
return value of `parse_time_line`. -/
theorem claim_c7_counterexample :
    parse_time_line "User time: abc" "User time:" = none ∧
      (parse_metrics_block ["User time: abc"] Metrics.zero 1).found = 1 ∧
      (parse_metrics_block ["User time: abc"] Metrics.zero 1).out.user_time = 0 :=
  ⟨by decide, by decide, by decide⟩

/-- C7 amended: a line containing a known time-field prefix whose number
fails to parse leaves the sample field at its current value (its default
zero at block start) but still increments the found-field counter, and
still folds the unchanged field value into the running average. -/
theorem claim_c7_amended_found_still_counted (l : String) (ls : List String) (cc : ℕ)
    (st : BlockState)
    (h1 : containsPat l "Wall Clock Time:" = false)
    (h2 : containsPat l "User time:" = true)
    (h3 : parse_time_line l "User time:" = none) :
    parse_block_go cc (l :: ls) st =
      parse_block_go cc ls
        ⟨st.out,
          { st.avg with
              user_time := calculate_new_average st.avg.user_time (cc - 1) st.out.user_time },
          st.found + 1⟩ := by
  have hm : matchedField l = some MetricField.user := by
    simp [matchedField, h1, h2]
  rw [parse_block_go]
  simp only [hm]
  congr 1
  simp [block_step, hm, h3]

/-- Concrete instantiation of `claim_c7_amended_found_still_counted` at the
line `User time: abc` in a fresh block state. -/
theorem claim_c7_witness :
    parse_block_go 1 ["User time: abc"] ⟨Metrics.zero, Metrics.zero, 0⟩ =
      parse_block_go 1 []
        ⟨Metrics.zero,
          { Metrics.zero with
              user_time := calculate_new_average Metrics.zero.user_time (1 - 1) Metrics.zero.user_time },
          0 + 1⟩ :=
  claim_c7_amended_found_still_counted _ _ _ _ (by decide) (by decide) (by decide)

/-- C8: in a block with two lines matching the same field prefix (user
time here), the Sample built for the block holds the value parsed from the
later line — the later occurrence overwrites the earlier one. -/
theorem claim_c8_last_value_kept (l1 l2 : String) (v2 : ℚ) (avg : Metrics) (cc : ℕ)
    (h1 : matchedField l1 = some MetricField.user)
    (h2 : matchedField l2 = some MetricField.user)
    (h3 : parse_time_line l2 "User time:" = some v2) :
    (parse_metrics_block [l1, l2] avg cc).out.user_time = v2 := by
  simp [parse_metrics_block, parse_block_go, block_step, h1, h2, h3]

/-- Concrete instantiation of `claim_c8_last_value_kept`: two user-time
lines with values 3 and 7; the Sample keeps 7. -/
theorem claim_c8_witness :
    parse_time_line "User time: 7 ms" "User time:" = some 7 ∧
      (parse_metrics_block ["User time: 3 ms", "User time: 7 ms"] Metrics.zero 1).out.user_time = 7 := by
  have h3 : parse_time_line "User time: 7 ms" "User time:" = some 7 := by
    simp +decide [parse_time_line, parseFloatQ, parseUnsigned, strstrTail, listPrefixOf,
      isCWhite, isDigitC, digitsVal, apply_unit, unitTokenL, takeBytes, utf8Len,
      List.dropWhile_cons, List.takeWhile_cons]
  exact ⟨h3, claim_c8_last_value_kept _ _ _ _ _ (by decide) (by decide) h3⟩

/-- C2 counterexample: a block consisting of the single line
`User time: 5 ms` is incomplete (one of five fields), yet parsing it has
already changed the running average's user-time field from 0 to 5 — the
claim that an incomplete block leaves the running-average state unchanged
is false. -/
theorem claim_c2_counterexample :
    (parse_metrics_block ["User time: 5 ms"] Metrics.zero 1).complete = false ∧
      Metrics.zero.user_time = 0 ∧
      (parse_metrics_block ["User time: 5 ms"] Metrics.zero 1).avg.user_time = 5 ∧
      (5 : ℚ) ≠ 0 := by
  refine ⟨by decide, by decide, ?_, by norm_num⟩
  simp +decide [parse_metrics_block, parse_block_go, block_step, matchedField, containsPat,
    parse_time_line, parseFloatQ, parseUnsigned, strstrTail, listPrefixOf,
    isCWhite, isDigitC, digitsVal, apply_unit, unitTokenL, takeBytes, utf8Len,
    calculate_new_average, Metrics.zero, List.dropWhile_cons, List.takeWhile_cons]

theorem parse_block_go_user_avg_const (cc : ℕ) : ∀ (lines : List String) (st : BlockState),
    (∀ l ∈ lines, matchedField l ≠ some MetricField.user) →
    ((parse_block_go cc lines st).1).avg.user_time = st.avg.user_time := by
  intro lines
  induction lines with
  | nil => intro st _; simp [parse_block_go]
  | cons l ls ih =>
      intro st hl
      rw [parse_block_go]
      cases hm : matchedField l with
      | some f =>
          simp only
          rw [ih _ (fun m hm2 => hl m (List.mem_cons_of_mem _ hm2))]
          cases f with
          | user => exact absurd hm (hl l (List.mem_cons_self _ _))
          | wall => simp [block_step, hm]
          | sys => simp [block_step, hm]
          | cpu => simp [block_step, hm]
          | rss => simp [block_step, hm]
      | none =>
          simp only
          split
          · rfl
          · exact ih _ (fun m hm2 => hl m (List.mem_cons_of_mem _ hm2))

/-- C2 amended: a section whose block is incomplete writes no CSV row
(the CSV state of every phase is unchanged), and the running-average field
of a metric matched by no line of the block is unchanged; the averages of
the fields that did match lines are however updated, as the counterexample
shows for `user_time`. -/
theorem claim_c2_amended (hl : String) (ls : List String) (avg : Phase → Metrics)
    (csv : Phase → List Row) (cc : ℕ) (ph : Phase)
    (hhd : headerPhase hl = some ph)
    (hinc : (parse_metrics_block ls (avg ph) cc).complete = false)
    (hrest : (parse_metrics_block ls (avg ph) cc).rest = [])
    (huser : ∀ l ∈ ls, matchedField l ≠ some MetricField.user) :
    (route_lines (hl :: ls) avg csv cc).2 = csv ∧
      ((route_lines (hl :: ls) avg csv cc).1 ph).user_time = (avg ph).user_time := by
  rw [route_lines]
  simp only [hhd, hinc, hrest, Bool.false_eq_true, if_false, route_lines]
  refine ⟨by simp, ?_⟩
  simp only [updPhase, if_pos rfl, parse_metrics_block]
  exact parse_block_go_user_avg_const cc ls _ huser

/-- Concrete instantiation of `claim_c2_amended`: an Inference section whose
block has only a CPU line; no CSV row is written and the user-time average
is untouched. -/
theorem claim_c2_witness :
    (route_lines ["Inference Metrics", "CPU Usage: 50"] (fun _ => Metrics.zero) initCsv 1).2 =
        initCsv ∧
      ((route_lines ["Inference Metrics", "CPU Usage: 50"]
          (fun _ => Metrics.zero) initCsv 1).1 Phase.inference).user_time =
        ((fun _ => Metrics.zero : Phase → Metrics) Phase.inference).user_time :=
  claim_c2_amended _ _ _ _ _ _ (by decide) (by decide) (by decide) (by decide)

/-- C6 counterexample: the code does not recognize the plain-ASCII unit
`us`; `User time: 1500 us` parses to 1500 unchanged, not to the claimed
1500/1000 = 1.5 milliseconds. -/
theorem claim_c6_counterexample :
    parse_time_line "User time: 1500 us" "User time:" = some 1500 ∧
      some ((1500 : ℚ)) ≠ some ((1500 : ℚ) / 1000) := by
  constructor
  · simp +decide [parse_time_line, parseFloatQ, parseUnsigned, strstrTail, listPrefixOf,
      isCWhite, isDigitC, digitsVal, apply_unit, unitTokenL, takeBytes, utf8Len,
      List.dropWhile_cons, List.takeWhile_cons]
  · simp
    norm_num

/-- C6 amended: units `s` and `sec` multiply by 1000 and `µs` divides by
1000, but plain `us` is not recognized (value unchanged), and
`microseconds` can never match because the `%9s` buffer keeps only its
first 9 bytes (`microseco`), so it too leaves the value unchanged; an
absent or `ms` unit leaves the value unchanged.  The spec's four concrete
examples hold. -/
theorem claim_c6_amended :
    (∀ n : ℚ,
        apply_unit n "s".toList = n * 1000 ∧
        apply_unit n "sec".toList = n * 1000 ∧
        apply_unit n "µs".toList = n / 1000 ∧
        apply_unit n "ms".toList = n ∧
        apply_unit n [] = n ∧
        apply_unit n "us".toList = n ∧
        apply_unit n "microseco".toList = n) ∧
      unitTokenL " microseconds".toList = "microseco".toList ∧
      parse_time_line "User time: 2.5 s" "User time:" = some 2500 ∧
      parse_time_line "User time: 1500 µs" "User time:" = some (3 / 2) ∧
      parse_time_line "User time: 1500 microseconds" "User time:" = some 1500 ∧
      parse_time_line "User time: 42.0 ms" "User time:" = some 42 ∧
      parse_time_line "User time: 10.0" "User time:" = some 10 := by
  refine ⟨fun n => ⟨?_, ?_, ?_, ?_, ?_, ?_, ?_⟩, by decide, ?_, ?_, ?_, ?_, ?_⟩ <;>
    simp +decide [parse_time_line, parseFloatQ, parseUnsigned, strstrTail, listPrefixOf,
      isCWhite, isDigitC, digitsVal, apply_unit, unitTokenL, takeBytes, utf8Len,
      List.dropWhile_cons, List.takeWhile_cons] <;>
    norm_num

theorem parse_block_go_rest_le (cc : ℕ) : ∀ (lines : List String) (st : BlockState),
    (parse_block_go cc lines st).2.length ≤ lines.length := by
  intro lines
  induction lines with
  | nil => intro st; simp [parse_block_go]
  | cons a as ih =>
      intro st
      rw [parse_block_go]
      split
      · exact le_trans (ih _) (Nat.le_succ _)
      · split
        · simp
        · exact le_trans (ih _) (Nat.le_succ _)

theorem route_lines_csv_extend : ∀ (n : ℕ) (lines : List String), lines.length ≤ n →
    ∀ (avg : Phase → Metrics) (csv : Phase → List Row) (cc : ℕ) (ph : Phase),
      ∃ rows, (route_lines lines avg csv cc).2 ph = csv ph ++ rows ∧
        ∀ r ∈ rows, ∃ m, r = Row.data m := by
  intro n
  induction n with
  | zero =>
      intro lines hlen avg csv cc ph
      have hnil : lines = [] := List.eq_nil_of_length_eq_zero (Nat.le_zero.mp hlen)
      subst hnil
      exact ⟨[], by simp [route_lines], by simp⟩
  | succ n ih =>
      intro lines hlen avg csv cc ph
      match lines with
      | [] => exact ⟨[], by simp [route_lines], by simp⟩
      | l :: ls =>
          rw [route_lines]
          have hlen' : ls.length ≤ n := by
            simpa [Nat.succ_le_succ_iff] using hlen
          cases hh : headerPhase l with
          | none =>
              simpa using ih ls hlen' avg csv cc ph
          | some ph' =>
              simp only
              have hrest : (parse_metrics_block ls (avg ph') cc).rest.length ≤ n := by
                refine le_trans ?_ hlen'
                simp only [parse_metrics_block]
                exact parse_block_go_rest_le cc ls _
              by_cases hc : (parse_metrics_block ls (avg ph') cc).complete = true
              · simp only [hc, if_true]
                obtain ⟨rows, hrows, hdata⟩ := ih (parse_metrics_block ls (avg ph') cc).rest hrest
                  (updPhase avg ph' (parse_metrics_block ls (avg ph') cc).avg)
                  (updPhase csv ph'
                    (csv ph' ++ [Row.data (parse_metrics_block ls (avg ph') cc).out])) cc ph
                by_cases hp : ph = ph'
                · subst hp
                  refine ⟨Row.data (parse_metrics_block ls (avg ph) cc).out :: rows, ?_, ?_⟩
                  · rw [hrows]
                    simp [updPhase]
                  · intro x hx
                    rcases List.mem_cons.mp hx with h | h
                    · exact ⟨_, h⟩
                    · exact hdata x h
                · refine ⟨rows, ?_, hdata⟩
                  rw [hrows]
                  simp [updPhase, hp]
              · simp only [hc, if_false]
                exact ih (parse_metrics_block ls (avg ph') cc).rest hrest
                  (updPhase avg ph' (parse_metrics_block ls (avg ph') cc).avg) csv cc ph

theorem run_go_csv_extend : ∀ (iters : List (Option (List String)))
    (avg : Phase → Metrics) (csv : Phase → List Row) (cc : ℕ) (ph : Phase),
    ∃ rows, (run_go iters avg csv cc).2 ph = csv ph ++ rows ∧
      ∀ r ∈ rows, ∃ m, r = Row.data m := by
  intro iters
  induction iters with
  | nil => intro avg csv cc ph; exact ⟨[], by simp [run_go], by simp⟩
  | cons it rest ih =>
      intro avg csv cc ph
      match it with
      | none => rw [run_go]; exact ih avg csv (cc + 1) ph
      | some lines =>
          rw [run_go]
          obtain ⟨rows1, h1, hd1⟩ :=
            route_lines_csv_extend lines.length lines le_rfl avg csv (cc + 1) ph
          obtain ⟨rows2, h2, hd2⟩ := ih (route_lines lines avg csv (cc + 1)).1
            (route_lines lines avg csv (cc + 1)).2 (cc + 1) ph
          refine ⟨rows1 ++ rows2, ?_, ?_⟩
          · rw [h2, h1, List.append_assoc]
          · intro x hx
            rcases List.mem_append.mp hx with h | h
            · exact hd1 x h
            · exact hd2 x h

/-- C9 counterexample: the header actually written is
`user_time,system_time,cpu_percent,wallclock_time,max_rss` — the fourth
column is named `wallclock_time`, not `wall_clock` as the claim's column
list implies. -/
theorem claim_c9_counterexample :
    (run_bench [none]).2 Phase.inference = [Row.header csv_header_line] ∧
      csv_header_line ≠ "user_time,system_time,cpu_percent,wall_clock,max_rss" :=
  ⟨by simp [run_bench, run_go, initCsv], by decide⟩

/-- C9 amended: in every run, each phase's CSV output begins with exactly
one header row, written before any data rows and never duplicated, whose
content is verbatim `user_time,system_time,cpu_percent,wallclock_time,max_rss`
(the code's fourth column name is `wallclock_time`, not `wall_clock`). -/
theorem claim_c9_header_once_first (iters : List (Option (List String))) (ph : Phase) :
    ∃ rows, (run_bench iters).2 ph = Row.header csv_header_line :: rows ∧
      ∀ r ∈ rows, ∃ m, r = Row.data m := by
  obtain ⟨rows, h, hd⟩ := run_go_csv_extend iters (fun _ => Metrics.zero) initCsv 0 ph
  refine ⟨rows, ?_, hd⟩
  rw [run_bench, h]
  simp [initCsv]

theorem listPrefixOf_append (p r : List Char) : listPrefixOf p (p ++ r) = true := by
  induction p with
  | nil => simp [listPrefixOf]
  | cons c cs ih =>
      rw [List.cons_append, listPrefixOf]
      simp [ih]

theorem strstrTail_append (p r : List Char) (hp : p ≠ []) :
    strstrTail p (p ++ r) = some r := by
  match p, hp with
  | c :: cs, _ =>
    rw [List.cons_append, strstrTail, ← List.cons_append, if_pos (listPrefixOf_append _ _)]
    rw [List.drop_left]

theorem takeWhile_append_stop {p : Char → Bool} : ∀ (ds : List Char) (x : Char) (r : List Char),
    (∀ c ∈ ds, p c = true) → p x = false →
    ((ds ++ x :: r).takeWhile p = ds ∧ (ds ++ x :: r).dropWhile p = x :: r) := by
  intro ds
  induction ds with
  | nil => intro x r _ hx; simp [List.takeWhile_cons, List.dropWhile_cons, hx]
  | cons d ds ih =>
      intro x r hall hx
      have hd : p d = true := hall d (List.mem_cons_self _ _)
      have hih := ih x r (fun c hc => hall c (List.mem_cons_of_mem _ hc)) hx
      simp [List.takeWhile_cons, List.dropWhile_cons, hd, hih.1, hih.2]

theorem dropWhile_all_false {p : Char → Bool} : ∀ (u : List Char),
    (∀ c ∈ u, p c = false) → u.dropWhile p = u := by
  intro u
  cases u with
  | nil => simp
  | cons c cs => intro h; simp [List.dropWhile_cons, h c (List.mem_cons_self _ _)]

theorem takeWhile_all_true {p : Char → Bool} : ∀ (u : List Char),
    (∀ c ∈ u, p c = true) → u.takeWhile p = u := by
  intro u
  induction u with
  | nil => simp
  | cons c cs ih =>
      intro h
      simp [List.takeWhile_cons, h c (List.mem_cons_self _ _),
        ih (fun m hm => h m (List.mem_cons_of_mem _ hm))]

theorem takeBytes_of_fit : ∀ (u : List Char) (n : ℕ),
    (∀ c ∈ u, utf8Len c = 1) → u.length ≤ n → takeBytes n u = u := by
  intro u
  induction u with
  | nil => intro n _ _; simp [takeBytes]
  | cons c cs ih =>
      intro n h hlen
      have hc : utf8Len c = 1 := h c (List.mem_cons_self _ _)
      have hn : 1 ≤ n := by
        simp only [List.length_cons] at hlen
        omega
      rw [takeBytes, hc, if_pos hn]
      rw [ih (n - 1) (fun m hm => h m (List.mem_cons_of_mem _ hm))
        (by simp only [List.length_cons] at hlen; omega)]

theorem alpha_not_white (c : Char) (h : isAsciiAlphaC c = true) : isCWhite c = false := by
  simp [isAsciiAlphaC] at h
  simp [isCWhite]
  omega

theorem alpha_utf8Len (c : Char) (h : isAsciiAlphaC c = true) : utf8Len c = 1 := by
  simp [isAsciiAlphaC] at h
  rw [utf8Len, if_pos (by omega)]

theorem digit_not_white (c : Char) (h : isDigitC c = true) : isCWhite c = false := by
  simp [isDigitC] at h
  simp [isCWhite]
  omega

theorem digit_ne_char (c x : Char) (h : isDigitC c = true) (hx : isDigitC x = false) :
    c ≠ x := by
  intro he
  subst he
  rw [h] at hx
  simp at hx

/-- C10: a time-field line whose digits are followed by an ASCII-alphabetic
unit token of at most 9 characters that is none of `s`, `sec`, `µs`,
`microseconds` parses successfully and returns the number unchanged (the
unknown unit is silently treated as milliseconds). -/
theorem claim_c10_unknown_unit (ds u : List Char)
    (hds : ds ≠ []) (hdig : ∀ c ∈ ds, isDigitC c = true)
    (halpha : ∀ c ∈ u, isAsciiAlphaC c = true) (hlen : u.length ≤ 9)
    (h1 : u ≠ "s".toList) (h2 : u ≠ "sec".toList)
    (h3 : u ≠ "µs".toList) (h4 : u ≠ "microseconds".toList) :
    parse_time_line (String.mk ("User time:".toList ++ (' ' :: (ds ++ ' ' :: u))))
        "User time:" =
      some ((digitsVal ds : ℚ)) := by
  obtain ⟨d, ds', rfl⟩ : ∃ d ds', ds = d :: ds' := by
    cases ds with
    | nil => exact absurd rfl hds
    | cons d ds' => exact ⟨d, ds', rfl⟩
  have hd : isDigitC d = true := hdig d (List.mem_cons_self _ _)
  have hs : strstrTail ("User time:".toList)
      ((String.mk ("User time:".toList ++ (' ' :: ((d :: ds') ++ ' ' :: u)))).toList) =
      some (' ' :: ((d :: ds') ++ ' ' :: u)) :=
    strstrTail_append _ _ (by decide)
  rw [parse_time_line, hs]
  have hq : (' ' :: ((d :: ds') ++ ' ' :: u)).dropWhile (fun c => c = ' ') =
      (d :: ds') ++ ' ' :: u := by
    rw [List.dropWhile_cons, List.cons_append, List.dropWhile_cons]
    simp [digit_ne_char d ' ' hd (by decide)]
  simp only [hq]
  have hw : ((d :: ds') ++ ' ' :: u).dropWhile isCWhite = d :: (ds' ++ ' ' :: u) := by
    rw [List.cons_append, List.dropWhile_cons]
    simp [digit_not_white d hd]
  rw [parseFloatQ]
  simp only [hw]
  rw [if_neg (digit_ne_char d '-' hd (by decide))]
  rw [if_neg (digit_ne_char d '+' hd (by decide))]
  have hsplit := takeWhile_append_stop (p := isDigitC) (d :: ds') ' ' u hdig (by decide)
  rw [parseUnsigned]
  rw [show d :: (ds' ++ ' ' :: u) = (d :: ds') ++ ' ' :: u from rfl]
  simp only [hsplit.1, hsplit.2]
  rw [if_neg (by decide : ¬ (' ' = '.'))]
  rw [if_neg (List.cons_ne_nil d ds')]
  have htok : unitTokenL (' ' :: u) = u := by
    rw [unitTokenL, List.dropWhile_cons]
    simp only [if_pos (by decide : isCWhite ' ' = true)]
    rw [dropWhile_all_false u (fun c hc => alpha_not_white c (halpha c hc))]
    rw [takeWhile_all_true u (fun c hc => by
      rw [alpha_not_white c (halpha c hc)]; rfl)]
    exact takeBytes_of_fit u 9 (fun c hc => alpha_utf8Len c (halpha c hc)) hlen
  show some (apply_unit ((digitsVal (d :: ds') : ℚ)) (unitTokenL (' ' :: u))) =
    some ((digitsVal (d :: ds') : ℚ))
  rw [htok]
  rw [apply_unit, if_neg (by simp; exact ⟨h1, h2⟩), if_neg (by simp; exact ⟨h3, h4⟩)]

/-- Concrete instantiation of `claim_c10_unknown_unit`: the line
`User time: 42 xyz` parses to 42 with the unknown unit `xyz` ignored. -/
theorem claim_c10_witness :
    parse_time_line
        (String.mk ("User time:".toList ++ (' ' :: (['4', '2'] ++ ' ' :: ['x', 'y', 'z']))))
        "User time:" =
      some ((digitsVal ['4', '2'] : ℚ)) ∧ (digitsVal ['4', '2'] : ℚ) = 42 :=
  ⟨claim_c10_unknown_unit ['4', '2'] ['x', 'y', 'z'] (by decide) (by decide) (by decide)
      (by decide) (by decide) (by decide) (by decide) (by decide),
   by rw [show digitsVal ['4', '2'] = 42 from by decide]; norm_num⟩

end Bench
